import Mathlib

/-!
Verification of the memory region construction subsystem of uarch-bench
(src/util.cpp): the huge page allocator, the alignment engine and the
shuffled region builder, embedded shallowly over natural number addresses.
Machine pointers and size_t values are 64-bit, so arithmetic on them is
taken modulo 2 ^ 64 wherever the C code can wrap.
-/

namespace UarchBench

/-- Constant TWO_MB from util.cpp line 60: 2MB, the huge page size used for
arena alignment. -/
def TWO_MB : ℕ := 2 * 1024 * 1024

/-- Constant STORAGE_SIZE from util.cpp line 61: the capacity of the small
static arena, 100 MB. -/
def STORAGE_SIZE : ℕ := 100 * 1024 * 1024

/-- Modelled from the spec: the hardware cache line size constant
UB_CACHE_LINE_SIZE, declared in util.hpp which is not among the sources; the
spec fixes it at 64 bytes. -/
def UB_CACHE_LINE_SIZE : ℕ := 64

/-- Modulus of 64-bit machine arithmetic: pointer and size_t computations in
util.cpp wrap modulo 2 ^ 64. -/
def U64 : ℕ := 2 ^ 64

/-- Modelled from the spec: the power-of-two test is_pow2 used by the asserts
of aligned_ptr; it is declared in util.hpp which is not among the sources. A
size_t value is a power of two when it equals 2 ^ k for some exponent k below
the 64-bit width. -/
def is_pow2 (x : ℕ) : Bool := decide (∃ k : Fin 64, x = 2 ^ (k : ℕ))

/-- Semantics of std::memset(ptr, val, sz) on byte-level memory: every byte of
the range [ptr, ptr+sz) becomes val, the rest is unchanged. -/
def memset (mem : ℕ → ℕ) (ptr val sz : ℕ) : ℕ → ℕ :=
  fun a => if ptr ≤ a ∧ a < ptr + sz then val else mem a

/-- Result of new_huge_ptr: the returned pointer and the memory after the two
memset passes. -/
structure HugeAlloc where
  ptr : ℕ
  mem : ℕ → ℕ

/-- Embedding of new_huge_ptr (util.cpp lines 71-87). posix_memalign is an OS
primitive; its successful result is modelled by the parameter raw, together
with the 2MB-alignment postcondition assumed by the theorems. The code moves
the pointer up by TWO_MB and then touches every byte of the size region twice,
first with the fill value 1 and then with 0. -/
def new_huge_ptr (raw size : ℕ) (mem : ℕ → ℕ) : HugeAlloc :=
  let ptr := raw + TWO_MB
  let mem1 := memset mem ptr 1 size
  let mem2 := memset mem1 ptr 0 size
  ⟨ptr, mem2⟩

/-- Embedding of align (util.cpp lines 89-106). The result is none exactly when
one of the two asserts at the end fails, modelling the fatal abort. In the C
source the variable r is assigned nullptr when space < required_size + padding,
but that branch is dead: r is unconditionally overwritten with the aligned
address on the following line, which is rendered here as an if whose branches
coincide. The expression pn + base_alignment - 1 and the negation
-base_alignment are 64-bit operations, hence the mod U64 wrapping. -/
def align (base_alignment required_size : ℕ) (p : ℕ) (space : ℕ) : Option ℕ :=
  let pn := p % U64
  let aligned := ((pn + base_alignment + (U64 - 1)) % U64) &&&
    ((U64 - base_alignment % U64) % U64)
  let padding := (aligned + (U64 - pn)) % U64
  let r := if space % U64 < (required_size + padding) % U64 then aligned else aligned
  if r = 0 then none
  else if r &&& ((base_alignment + (U64 - 1)) % U64) ≠ 0 then none
  else some r

/-- Embedding of aligned_ptr (util.cpp lines 108-116) with the small arena base
passed explicitly: base stands for the value the static storage_ptr holds, the
pointer new_huge_ptr produced on the first call. The three leading asserts form
the configuration error path and yield none. -/
def aligned_ptr (base : ℕ) (base_alignment required_size : ℕ) : Option ℕ :=
  if STORAGE_SIZE < required_size then none
  else if !(is_pow2 base_alignment) then none
  else if TWO_MB < base_alignment then none
  else align base_alignment required_size base STORAGE_SIZE

/-- Embedding of misaligned_ptr (util.cpp lines 123-126): the aligned pointer
offset by the signed byte count misalignment, as ssize_t pointer arithmetic. -/
def misaligned_ptr (base : ℕ) (base_alignment required_size : ℕ)
    (misalignment : ℤ) : Option ℤ :=
  (aligned_ptr base base_alignment required_size).map
    (fun p => (p : ℤ) + misalignment)

/-- Embedding of aligned_ptr with the static storage_ptr threaded explicitly;
none models the C null pointer before the first call. alloc is the address
new_huge_ptr would return if the arena has to be created during this call. The
result pairs the new value of storage_ptr with the returned pointer. -/
def aligned_ptr_st (alloc : ℕ) (storage_ptr : Option ℕ)
    (base_alignment required_size : ℕ) : Option ℕ × Option ℕ :=
  if STORAGE_SIZE < required_size then (storage_ptr, none)
  else if !(is_pow2 base_alignment) then (storage_ptr, none)
  else if TWO_MB < base_alignment then (storage_ptr, none)
  else
    let base := storage_ptr.getD alloc
    (some base, align base_alignment required_size base STORAGE_SIZE)

/-- Modelled from the spec: one step of the pseudorandom number stream that
drives the shuffle. std::shuffle with std::mt19937_64 seeded by the fixed
constant 123 is a library external; the spec requires only a seeded
deterministic pseudorandom generator, rendered here as a 64-bit linear
congruential step. -/
def lcgNext (s : ℕ) : ℕ := (6364136223846793005 * s + 1442695040888963407) % U64

/-- Modelled from the spec: the seeded deterministic pseudorandom shuffle of
builder step 4 (std::shuffle in util.cpp line 168). Each round draws the next
state of the stream, picks the remaining element at position state mod length,
and removes it. -/
def shuffleGo : ℕ → ℕ → List ℕ → List ℕ
  | 0, _, _ => []
  | fuel + 1, s, l =>
    if h : l = [] then []
    else
      l.get ⟨lcgNext s % l.length, Nat.mod_lt _ (List.length_pos.mpr h)⟩ ::
        shuffleGo fuel (lcgNext s)
          (l.erase (l.get ⟨lcgNext s % l.length, Nat.mod_lt _ (List.length_pos.mpr h)⟩))

/-- Seeded shuffle entry point: one selection round per element. -/
def shuffleSel (s : ℕ) (l : List ℕ) : List ℕ := shuffleGo l.length s l

/-- Permutation of the slot indexes [0, n) used by the builder: iota fills the
index vector with 0, 1, ..., n-1 and the seeded shuffle rearranges it
(util.cpp lines 166-168, fixed seed 123). -/
def shufflePerm (n : ℕ) : List ℕ := shuffleSel 123 (List.range n)

/-- Sentinel fill: memset(storage, -1, size) writes the all-ones pattern over
the region before linking (util.cpp line 164); in slot index space every next
field initially holds the all-ones 64-bit value. -/
def initMem : ℕ → ℕ := fun _ => U64 - 1

/-- Loop of util.cpp lines 170-176 in slot index space: p starts at the first
element, each iteration stores the next index into the next field of slot p
and advances, and the final store closes the cycle back to first.
Function.update models one setNexts store into the next[0] field. -/
def linkLoop (first : ℕ) : ℕ → List ℕ → (ℕ → ℕ) → (ℕ → ℕ)
  | p, [], mem => Function.update mem p first
  | p, x :: rest, mem => linkLoop first x rest (Function.update mem p x)

/-- Next-pointer map written by the builder for the index permutation idx: the
loop runs from slot idx[0] through the successive elements and closes the
cycle; an empty index list writes nothing. -/
def buildLinks (idx : List ℕ) (mem : ℕ → ℕ) : ℕ → ℕ :=
  match idx with
  | [] => mem
  | x :: rest => linkLoop x x rest mem

/-- Body of the do-while loop of count (util.cpp lines 133-141): p has already
been advanced and the counter incremented when the exit test runs. fuel bounds
the number of iterations; none models divergence within the given fuel. -/
def countGo (f : ℕ → ℕ) (first : ℕ) : ℕ → ℕ → ℕ → Option ℕ
  | _, _, 0 => none
  | p, c, fuel + 1 => if p = first then some c else countGo f first (f p) (c + 1) fuel

/-- Embedding of count (util.cpp lines 133-141): starting at first, follow the
next[0] field and count steps until the walk returns to first. -/
def count (f : ℕ → ℕ) (first : ℕ) (fuel : ℕ) : Option ℕ :=
  countGo f first (f first) 1 fuel

/-- Descriptor returned by the builder, in slot index space: region size in
bytes, the first slot (the slot at the storage pointer, index 0), and the
next[0] field of every slot after linking. -/
structure BuiltRegion where
  size : ℕ
  start : ℕ
  next : ℕ → ℕ

/-- Core of shuffled_region after its asserts (util.cpp lines 158-186): memset
the region with the sentinel, shuffle the iota indexes with the fixed seed,
link the slots in permutation order closing the cycle, and check with count
that the cycle through the first slot has length size_lines. Slots are
addressed by their index from the storage pointer; the clflush and mfence
eviction loop does not change memory contents and is not modelled. -/
def buildRegion (size : ℕ) : Option BuiltRegion :=
  let size_lines := size / UB_CACHE_LINE_SIZE
  let idx := shufflePerm size_lines
  let f := buildLinks idx initMem
  match count f 0 size_lines with
  | some c => if c = size_lines then some ⟨size, 0, f⟩ else none
  | none => none

/-- Embedding of shuffled_region (util.cpp lines 150-187) with the large arena
capacity passed explicitly: cap stands for MAX_SHUFFLED_REGION_SIZE, declared
in util.hpp which is not among the sources (the spec fixes no numeric value
for it). The three leading asserts form the configuration error path. The
offset argument shifts the storage pointer by raw bytes; slot indexes are
relative to the shifted pointer, so the built structure does not depend on
offset beyond the capacity check. The sum size + offset in the capacity
assert is size_t arithmetic and wraps modulo 2 ^ 64. -/
def shuffled_region (cap size offset : ℕ) : Option BuiltRegion :=
  if cap < (size + offset) % U64 then none
  else if size % UB_CACHE_LINE_SIZE ≠ 0 then none
  else if size / UB_CACHE_LINE_SIZE = 0 then none
  else buildRegion size

/-- Embedding of shuffled_region with the function-local static storage_
pointer threaded explicitly: none models the state before the first call,
alloc the address new_huge_ptr would return if the arena is created during
this call. The static initialization runs after the asserts, as in the
source. -/
def shuffled_region_st (alloc : ℕ) (storage : Option ℕ) (cap size offset : ℕ) :
    Option ℕ × Option BuiltRegion :=
  if cap < (size + offset) % U64 then (storage, none)
  else if size % UB_CACHE_LINE_SIZE ≠ 0 then (storage, none)
  else if size / UB_CACHE_LINE_SIZE = 0 then (storage, none)
  else
    let base := storage.getD alloc
    (some base, buildRegion size)

/-! Arithmetic helpers about masking and modular cancellation. -/

/-- Masking a value below 2 ^ w with the two-complement pattern 2 ^ w - 2 ^ k
clears its k low bits. -/
theorem and_mask_high (w k x : ℕ) (hk : k ≤ w) (hx : x < 2 ^ w) :
    x &&& (2 ^ w - 2 ^ k) = x - x % 2 ^ k := by
  have h1 : 2 ^ w - 2 ^ k = (2 ^ (w - k) - 1) <<< k := by
    rw [Nat.shiftLeft_eq, Nat.sub_mul, one_mul, ← pow_add]
    congr 2
    omega
  have h2 : x - x % 2 ^ k = (x >>> k) <<< k := by
    rw [Nat.shiftRight_eq_div_pow, Nat.shiftLeft_eq]
    have h3 := Nat.mod_add_div x (2 ^ k)
    rw [Nat.mul_comm (2 ^ k) (x / 2 ^ k)] at h3
    omega
  rw [h1, h2]
  apply Nat.eq_of_testBit_eq
  intro i
  rw [Nat.testBit_land, Nat.testBit_shiftLeft, Nat.testBit_shiftLeft,
    Nat.testBit_shiftRight, Nat.testBit_two_pow_sub_one]
  by_cases hik : k ≤ i
  · have hsum : k + (i - k) = i := by omega
    by_cases hiw : i < w
    · have : i - k < w - k := by omega
      simp [hik, hsum, this]
    · have hxw : x < 2 ^ i :=
        lt_of_lt_of_le hx (Nat.pow_le_pow_right (by norm_num) (le_of_not_lt hiw))
      simp [hik, hsum, Nat.testBit_lt_two_pow hxw]
  · simp [hik]

/-- Cancellation of a common summand under a fixed modulus. -/
theorem add_mod_cancel_left (n a t : ℕ) (h : (a + t) % n = a % n) : t % n = 0 := by
  have h2 : a + t ≡ a + 0 [MOD n] := by
    unfold Nat.ModEq
    simpa using h
  have := Nat.ModEq.add_left_cancel' a h2
  simpa [Nat.ModEq] using this

/-- Central fact behind claims C3 and C9: for a nonzero 2MB-aligned arena base
that fits in the address space and arguments passing the asserts, aligned_ptr
returns the base itself, because the padding to the next aligned address is
zero. -/
theorem aligned_ptr_eq_base (base base_alignment required_size : ℕ)
    (hb2 : base % TWO_MB = 0) (hb0 : 0 < base) (hbU : base + TWO_MB ≤ U64)
    (hrs : required_size ≤ STORAGE_SIZE) (hpow : is_pow2 base_alignment = true)
    (hle : base_alignment ≤ TWO_MB) :
    aligned_ptr base base_alignment required_size = some base := by
  obtain ⟨k, hk⟩ : ∃ k : Fin 64, base_alignment = 2 ^ (k : ℕ) := by
    simpa [is_pow2] using hpow
  have hk21 : (k : ℕ) ≤ 21 := by
    have h2 : (2 : ℕ) ^ (k : ℕ) ≤ 2 ^ 21 := by
      rw [← hk]
      simpa [TWO_MB] using hle
    exact (Nat.pow_le_pow_iff_right (by norm_num)).mp h2
  have hdvd : 2 ^ (k : ℕ) ∣ base := by
    refine dvd_trans (pow_dvd_pow 2 hk21) ?_
    have : (2 : ℕ) ^ 21 = TWO_MB := by norm_num [TWO_MB]
    rw [this]
    exact Nat.dvd_of_mod_eq_zero hb2
  have hbaU : 2 ^ (k : ℕ) < U64 := by
    have : (2 : ℕ) ^ (k : ℕ) ≤ 2 ^ 21 := Nat.pow_le_pow_right (by norm_num) hk21
    have h64 : (2 : ℕ) ^ 21 < 2 ^ 64 := by norm_num
    exact lt_of_le_of_lt this (by simp [U64])
  have hbpos : 0 < 2 ^ (k : ℕ) := Nat.pos_pow_of_pos _ (by norm_num)
  have hbaseU : base < U64 := by
    have : 0 < TWO_MB := by norm_num [TWO_MB]
    omega
  unfold aligned_ptr
  rw [if_neg (by omega), if_neg (by simp [hpow]), if_neg (by omega)]
  unfold align
  have hpn : base % U64 = base := Nat.mod_eq_of_lt hbaseU
  have hx : base + 2 ^ (k : ℕ) - 1 < U64 := by
    have : 2 ^ (k : ℕ) ≤ TWO_MB := by rw [← hk]; exact hle
    omega
  have e1 : (base % U64 + base_alignment + (U64 - 1)) % U64 =
      base + 2 ^ (k : ℕ) - 1 := by
    rw [hpn, hk]
    have : base + 2 ^ (k : ℕ) + (U64 - 1) = (base + 2 ^ (k : ℕ) - 1) + U64 := by
      have : 0 < U64 := by norm_num [U64]
      omega
    rw [this, Nat.add_mod_right]
    exact Nat.mod_eq_of_lt hx
  have e2 : (U64 - base_alignment % U64) % U64 = U64 - 2 ^ (k : ℕ) := by
    rw [hk, Nat.mod_eq_of_lt hbaU]
    apply Nat.mod_eq_of_lt
    omega
  have e3 : (base + 2 ^ (k : ℕ) - 1) % 2 ^ (k : ℕ) = 2 ^ (k : ℕ) - 1 := by
    obtain ⟨t, ht⟩ := hdvd
    have : base + 2 ^ (k : ℕ) - 1 = 2 ^ (k : ℕ) * t + (2 ^ (k : ℕ) - 1) := by omega
    rw [this, Nat.mul_add_mod]
    exact Nat.mod_eq_of_lt (by omega)
  have e4 : (base + 2 ^ (k : ℕ) - 1) &&& (U64 - 2 ^ (k : ℕ)) = base := by
    have hm := and_mask_high 64 (k : ℕ) (base + 2 ^ (k : ℕ) - 1)
      (Nat.le_of_lt k.isLt) (by simpa [U64] using hx)
    have hU : U64 = 2 ^ 64 := rfl
    rw [hU, hm, e3]
    omega
  have e5 : (base_alignment + (U64 - 1)) % U64 = 2 ^ (k : ℕ) - 1 := by
    rw [hk]
    have hU : 0 < U64 := by norm_num [U64]
    have : 2 ^ (k : ℕ) + (U64 - 1) = (2 ^ (k : ℕ) - 1) + U64 := by omega
    rw [this, Nat.add_mod_right]
    exact Nat.mod_eq_of_lt (by omega)
  have e6 : base &&& (2 ^ (k : ℕ) - 1) = 0 := by
    obtain ⟨t, ht⟩ := hdvd
    rw [Nat.and_pow_two_sub_one_eq_mod, ht, Nat.mul_mod_right]
  simp only [e1, e2, e4, e5, e6, ite_self]
  rw [if_neg (by omega)]
  simp

/-- Every alignment passing the asserts divides a 2MB-aligned base. -/
theorem base_mod_alignment (base base_alignment : ℕ)
    (hb2 : base % TWO_MB = 0) (hpow : is_pow2 base_alignment = true)
    (hle : base_alignment ≤ TWO_MB) : base % base_alignment = 0 := by
  obtain ⟨k, hk⟩ : ∃ k : Fin 64, base_alignment = 2 ^ (k : ℕ) := by
    simpa [is_pow2] using hpow
  have hk21 : (k : ℕ) ≤ 21 := by
    have h2 : (2 : ℕ) ^ (k : ℕ) ≤ 2 ^ 21 := by
      rw [← hk]
      simpa [TWO_MB] using hle
    exact (Nat.pow_le_pow_iff_right (by norm_num)).mp h2
  have hdvd : base_alignment ∣ base := by
    rw [hk]
    refine dvd_trans (pow_dvd_pow 2 hk21) ?_
    have h21 : (2 : ℕ) ^ 21 = TWO_MB := by norm_num [TWO_MB]
    rw [h21]
    exact Nat.dvd_of_mod_eq_zero hb2
  obtain ⟨t, ht⟩ := hdvd
  rw [ht, Nat.mul_mod_right]

/-- C2: the out-of-space check of align is dead code. At a 2MB-aligned base
with padding 0, space 100 and required size 200, the function returns the
aligned address instead of failing the assertion, because the store of nullptr
into r is unconditionally overwritten with the aligned address before
assert(r) runs. The claim says this input must take the fatal error path. -/
theorem c2_space_check_dead : align 64 200 2097152 100 = some 2097152 := by decide

/-- C3: for a nonzero 2MB-aligned arena base inside the address space, every
power-of-two alignment up to 2MB and every size up to the arena capacity,
aligned_ptr returns a pointer that is a multiple of the alignment and whose
size-byte range lies within the arena bounds [base, base + STORAGE_SIZE). -/
theorem c3_aligned_ptr_in_bounds (base base_alignment required_size : ℕ)
    (hb2 : base % TWO_MB = 0) (hb0 : 0 < base) (hbU : base + TWO_MB ≤ U64)
    (hrs : required_size ≤ STORAGE_SIZE) (hpow : is_pow2 base_alignment = true)
    (hle : base_alignment ≤ TWO_MB) :
    ∃ p, aligned_ptr base base_alignment required_size = some p ∧
      p % base_alignment = 0 ∧ base ≤ p ∧
      p + required_size ≤ base + STORAGE_SIZE := by
  exact ⟨base,
    aligned_ptr_eq_base base base_alignment required_size hb2 hb0 hbU hrs hpow hle,
    base_mod_alignment base base_alignment hb2 hpow hle, le_refl base, by omega⟩

/-- C3 witness at alignment 1024, size the full arena capacity, base 4MB. -/
theorem c3_witness :
    ∃ p, aligned_ptr 4194304 1024 104857600 = some p ∧
      p % 1024 = 0 ∧ 4194304 ≤ p ∧ p + 104857600 ≤ 4194304 + STORAGE_SIZE :=
  c3_aligned_ptr_in_bounds 4194304 1024 104857600 (by decide) (by decide)
    (by decide) (by decide) (by decide) (by decide)

/-- C9: under the same preconditions, aligned_ptr returns exactly the arena
base, whatever the alignment and size: the huge page allocator hands back a
2MB-aligned base, every permitted alignment divides 2MB, so the padding is
always zero and all calls alias the same address. -/
theorem c9_aligned_ptr_is_base (base base_alignment required_size : ℕ)
    (hb2 : base % TWO_MB = 0) (hb0 : 0 < base) (hbU : base + TWO_MB ≤ U64)
    (hrs : required_size ≤ STORAGE_SIZE) (hpow : is_pow2 base_alignment = true)
    (hle : base_alignment ≤ TWO_MB) :
    aligned_ptr base base_alignment required_size = some base :=
  aligned_ptr_eq_base base base_alignment required_size hb2 hb0 hbU hrs hpow hle

/-- C9 witness: two differently shaped requests at base 2MB both return the
base. -/
theorem c9_witness :
    aligned_ptr 2097152 64 4096 = some 2097152 ∧
    aligned_ptr 2097152 2097152 1 = some 2097152 :=
  ⟨c9_aligned_ptr_is_base 2097152 64 4096 (by decide) (by decide) (by decide)
      (by decide) (by decide) (by decide),
    c9_aligned_ptr_is_base 2097152 2097152 1 (by decide) (by decide) (by decide)
      (by decide) (by decide) (by decide)⟩

/-- C7: misaligned_ptr returns exactly the aligned_ptr result offset by the
signed byte count. -/
theorem c7_misaligned_offset (base base_alignment required_size : ℕ)
    (misalignment : ℤ)
    (hb2 : base % TWO_MB = 0) (hb0 : 0 < base) (hbU : base + TWO_MB ≤ U64)
    (hrs : required_size ≤ STORAGE_SIZE) (hpow : is_pow2 base_alignment = true)
    (hle : base_alignment ≤ TWO_MB) :
    ∃ p, aligned_ptr base base_alignment required_size = some p ∧
      misaligned_ptr base base_alignment required_size misalignment =
        some ((p : ℤ) + misalignment) := by
  refine ⟨base,
    aligned_ptr_eq_base base base_alignment required_size hb2 hb0 hbU hrs hpow hle, ?_⟩
  unfold misaligned_ptr
  rw [aligned_ptr_eq_base base base_alignment required_size hb2 hb0 hbU hrs hpow hle]
  rfl

/-- C7 witness at misalignment -1. -/
theorem c7_witness :
    ∃ p, aligned_ptr 2097152 64 4096 = some p ∧
      misaligned_ptr 2097152 64 4096 (-1) = some ((p : ℤ) + (-1)) :=
  c7_misaligned_offset 2097152 64 4096 (-1) (by decide) (by decide) (by decide)
    (by decide) (by decide) (by decide)

/-- C10: a zero size passes the capacity and multiple-of-cache-line asserts
but fails the positive slot count assert, so shuffled_region faults instead of
returning a descriptor. -/
theorem c10_zero_size_fatal (cap offset : ℕ) (h : offset ≤ cap) :
    shuffled_region cap 0 offset = none := by
  unfold shuffled_region
  have hml := Nat.mod_le (0 + offset) U64
  rw [if_neg (by omega), if_neg (by simp), if_pos (by simp)]

/-- C10 witness at offset 512. -/
theorem c10_witness : shuffled_region 104857600 0 512 = none :=
  c10_zero_size_fatal 104857600 512 (by decide)

/-- C4: new_huge_ptr returns a 2MB-aligned pointer into a block of
size + TWO_MB bytes, and every byte of the size region is written twice
before return, first with the fill value 1 and then with 0, so the final
contents are all zero. -/
theorem c4_new_huge_ptr (raw size : ℕ) (mem : ℕ → ℕ) (hraw : raw % TWO_MB = 0) :
    (new_huge_ptr raw size mem).ptr % TWO_MB = 0 ∧
    (new_huge_ptr raw size mem).ptr + size ≤ raw + (size + TWO_MB) ∧
    ∀ a, (new_huge_ptr raw size mem).ptr ≤ a →
      a < (new_huge_ptr raw size mem).ptr + size →
      memset mem (new_huge_ptr raw size mem).ptr 1 size a = 1 ∧
      (new_huge_ptr raw size mem).mem a = 0 := by
  have hptr : (new_huge_ptr raw size mem).ptr = raw + TWO_MB := rfl
  have hm : (new_huge_ptr raw size mem).mem =
      memset (memset mem (raw + TWO_MB) 1 size) (raw + TWO_MB) 0 size := rfl
  rw [hptr, hm]
  refine ⟨by rw [Nat.add_mod_right]; exact hraw, by omega, ?_⟩
  intro a h1 h2
  constructor
  · simp [memset, h1, h2]
  · simp [memset, h1, h2]

/-- C4 witness: a concrete byte in the middle of the region is 1 after the
first pass and 0 on return. -/
theorem c4_witness :
    (new_huge_ptr 2097152 64 (fun _ => 37)).ptr % TWO_MB = 0 ∧
    memset (fun _ => 37) (new_huge_ptr 2097152 64 (fun _ => 37)).ptr 1 64 4194335 = 1 ∧
    (new_huge_ptr 2097152 64 (fun _ => 37)).mem 4194335 = 0 := by
  have h := c4_new_huge_ptr 2097152 64 (fun _ => 37) (by decide)
  exact ⟨h.1, (h.2.2 4194335 (by decide) (by decide)).1,
    (h.2.2 4194335 (by decide) (by decide)).2⟩

/-- C8: once an arena exists, a further call neither replaces the stored
pointer nor uses another block: with storage already holding b, aligned_ptr
behaves as the pure function on base b and the state keeps b, and likewise
for the shuffled region arena. -/
theorem c8_static_arena_reuse (alloc b base_alignment required_size cap size offset : ℕ) :
    aligned_ptr_st alloc (some b) base_alignment required_size =
      (some b, aligned_ptr b base_alignment required_size) ∧
    shuffled_region_st alloc (some b) cap size offset =
      (some b, shuffled_region cap size offset) := by
  constructor
  · unfold aligned_ptr_st aligned_ptr
    split_ifs <;> rfl
  · unfold shuffled_region_st shuffled_region
    split_ifs <;> rfl

/-- C5: the built region is independent of the global state and of whatever
address the allocator would return, because the shuffle is re-seeded with the
fixed constant on every call: any two calls with the same size and offset
produce the identical structure, equal to the pure function of the
arguments. -/
theorem c5_shuffle_deterministic (alloc1 alloc2 : ℕ) (s1 s2 : Option ℕ)
    (cap size offset : ℕ) :
    (shuffled_region_st alloc1 s1 cap size offset).2 =
      (shuffled_region_st alloc2 s2 cap size offset).2 ∧
    (shuffled_region_st alloc1 s1 cap size offset).2 =
      shuffled_region cap size offset := by
  unfold shuffled_region_st shuffled_region
  constructor
  · split_ifs <;> rfl
  · split_ifs <;> rfl

/-! Permutation and cycle lemmas for the shuffled region builder. -/

/-- shuffleGo with enough fuel returns a permutation of its input list. -/
theorem shuffleGo_perm : ∀ (fuel s : ℕ) (l : List ℕ), l.length ≤ fuel →
    List.Perm (shuffleGo fuel s l) l := by
  intro fuel
  induction fuel with
  | zero =>
    intro s l hl
    have hnil : l = [] := List.length_eq_zero.mp (Nat.le_zero.mp hl)
    simp [hnil, shuffleGo]
  | succ fuel ih =>
    intro s l hl
    rw [shuffleGo]
    split
    · rename_i h
      simp [h]
    · rename_i h
      have hmem : l.get ⟨lcgNext s % l.length,
          Nat.mod_lt _ (List.length_pos.mpr h)⟩ ∈ l := List.get_mem _ _ _
      refine ((ih _ _ ?_).cons _).trans (List.perm_cons_erase hmem).symm
      rw [List.length_erase_of_mem hmem]
      omega

/-- Builder index list: shufflePerm n is a permutation of the iota list. -/
theorem shufflePerm_perm (n : ℕ) : List.Perm (shufflePerm n) (List.range n) := by
  unfold shufflePerm shuffleSel
  exact shuffleGo_perm _ _ _ (le_refl _)

/-- Slots outside the linking path keep their previous next field. -/
theorem linkLoop_not_mem (first : ℕ) :
    ∀ (rest : List ℕ) (p : ℕ) (mem : ℕ → ℕ) (q : ℕ),
      q ≠ p → q ∉ rest → linkLoop first p rest mem q = mem q := by
  intro rest
  induction rest with
  | nil =>
    intro p mem q hqp _
    show Function.update mem p first q = mem q
    rw [Function.update_noteq hqp]
  | cons x rest ih =>
    intro p mem q hqp hqr
    simp only [List.mem_cons, not_or] at hqr
    show linkLoop first x rest (Function.update mem p x) q = mem q
    rw [ih x (Function.update mem p x) q hqr.1 hqr.2, Function.update_noteq hqp]

/-- Value written at the loop entry slot: the head of the remaining path, or
first when the path is empty (the closing store). -/
theorem linkLoop_head (first : ℕ) (rest : List ℕ) (p : ℕ) (mem : ℕ → ℕ)
    (hp : p ∉ rest) : linkLoop first p rest mem p = rest.headD first := by
  cases rest with
  | nil =>
    show Function.update mem p first p = first
    rw [Function.update_same]
  | cons x rest =>
    simp only [List.mem_cons, not_or] at hp
    show linkLoop first x rest (Function.update mem p x) p = (x :: rest).headD first
    rw [linkLoop_not_mem first rest x (Function.update mem p x) p hp.1 hp.2,
      Function.update_same]
    rfl

/-- Value written at the i-th slot of the remaining path: its successor on the
path, or first at the end of the path. -/
theorem linkLoop_get (first : ℕ) :
    ∀ (rest : List ℕ) (p : ℕ) (mem : ℕ → ℕ), (p :: rest).Nodup →
      ∀ i, i < rest.length →
      linkLoop first p rest mem (rest.getD i 0) =
        if i + 1 < rest.length then rest.getD (i + 1) 0 else first := by
  intro rest
  induction rest with
  | nil =>
    intro p mem _ i hi
    simp at hi
  | cons x rest ih =>
    intro p mem hnd i hi
    have hnd2 : (x :: rest).Nodup := hnd.of_cons
    cases i with
    | zero =>
      show linkLoop first x rest (Function.update mem p x) ((x :: rest).getD 0 0) = _
      rw [List.getD_cons_zero]
      have hx : x ∉ rest := (List.nodup_cons.mp hnd2).1
      rw [linkLoop_head first rest x (Function.update mem p x) hx]
      cases rest with
      | nil => simp
      | cons y rest2 => simp
    | succ j =>
      show linkLoop first x rest (Function.update mem p x) ((x :: rest).getD (j + 1) 0) = _
      rw [List.getD_cons_succ]
      rw [ih x (Function.update mem p x) hnd2 j
        (by simp only [List.length_cons] at hi; omega)]
      by_cases hc : j + 1 < rest.length
      · rw [if_pos hc, if_pos (by simp only [List.length_cons]; omega),
          List.getD_cons_succ]
      · rw [if_neg hc, if_neg (by simp only [List.length_cons]; omega)]

/-- After the build loop, the next field of the i-th slot in permutation order
points to the (i+1)-th slot, cyclically. -/
theorem buildLinks_getD (idx : List ℕ) (mem : ℕ → ℕ) (hnd : idx.Nodup)
    (i : ℕ) (hi : i < idx.length) :
    buildLinks idx mem (idx.getD i 0) = idx.getD ((i + 1) % idx.length) 0 := by
  cases idx with
  | nil => simp at hi
  | cons x rest =>
    show linkLoop x x rest mem ((x :: rest).getD i 0) = _
    cases i with
    | zero =>
      rw [List.getD_cons_zero]
      have hx : x ∉ rest := (List.nodup_cons.mp hnd).1
      rw [linkLoop_head x rest x mem hx]
      cases rest with
      | nil => simp
      | cons y rest2 =>
        have h1 : (0 + 1) % (x :: y :: rest2).length = 1 :=
          Nat.mod_eq_of_lt (by simp only [List.length_cons]; omega)
        rw [h1]
        rfl
    | succ j =>
      rw [List.getD_cons_succ]
      rw [linkLoop_get x rest x mem hnd j
        (by simp only [List.length_cons] at hi; omega)]
      by_cases hc : j + 1 < rest.length
      · rw [if_pos hc, Nat.mod_eq_of_lt (by simp only [List.length_cons]; omega),
          List.getD_cons_succ]
      · rw [if_neg hc]
        have hjl : j + 1 = rest.length := by
          simp only [List.length_cons] at hi
          omega
        have h0 : (j + 1 + 1) % (x :: rest).length = 0 := by
          simp only [List.length_cons, ← hjl]
          exact Nat.mod_self _
        rw [h0, List.getD_cons_zero]

/-- Iterating the built next map follows the permutation cyclically. -/
theorem buildLinks_iterate (idx : List ℕ) (mem : ℕ → ℕ) (hnd : idx.Nodup)
    (k : ℕ) : ∀ i, i < idx.length →
    (buildLinks idx mem)^[k] (idx.getD i 0) = idx.getD ((i + k) % idx.length) 0 := by
  induction k with
  | zero =>
    intro i hi
    simp [Nat.mod_eq_of_lt hi]
  | succ k ih =>
    intro i hi
    have hlen : 0 < idx.length := Nat.lt_of_le_of_lt (Nat.zero_le i) hi
    rw [Function.iterate_succ_apply, buildLinks_getD idx mem hnd i hi]
    rw [ih ((i + 1) % idx.length) (Nat.mod_lt _ hlen)]
    congr 1
    rw [Nat.mod_add_mod]
    congr 1
    omega

/-- In-bounds getD agrees with getElem. -/
theorem getD_eq_getElem_zero (l : List ℕ) (m : ℕ) (h : m < l.length) :
    l.getD m 0 = l.get ⟨m, h⟩ := by
  simp [List.getD_eq_getElem?_getD, List.getElem?_eq_getElem h]

/-- Bundled cycle facts for the next map built over the shuffled permutation
of n slots: the count walk from slot 0 returns n, the first n stops are
pairwise distinct, and every slot is among them. -/
theorem shuffle_cycle_facts (n : ℕ) (hn : 0 < n) :
    count (buildLinks (shufflePerm n) initMem) 0 n = some n ∧
    (∀ i j, i < j → j < n →
      (buildLinks (shufflePerm n) initMem)^[i + 1] 0 ≠
        (buildLinks (shufflePerm n) initMem)^[j + 1] 0) ∧
    (∀ s, s < n → ∃ k, k < n ∧ (buildLinks (shufflePerm n) initMem)^[k + 1] 0 = s) := by
  have hperm := shufflePerm_perm n
  have hlen : (shufflePerm n).length = n := by
    rw [hperm.length_eq, List.length_range]
  have hnd : (shufflePerm n).Nodup := hperm.nodup_iff.mpr (List.nodup_range n)
  have h0mem : 0 ∈ shufflePerm n := hperm.mem_iff.mpr (List.mem_range.mpr hn)
  obtain ⟨i0, hi0l, hi0v⟩ : ∃ i0, i0 < (shufflePerm n).length ∧
      (shufflePerm n).getD i0 0 = 0 := by
    obtain ⟨m, hm, hval⟩ := List.mem_iff_getElem.mp h0mem
    exact ⟨m, hm, by rw [getD_eq_getElem_zero _ m hm]; exact hval⟩
  have hi0n : i0 < n := hlen ▸ hi0l
  have inj : ∀ i j, i < n → j < n →
      (shufflePerm n).getD i 0 = (shufflePerm n).getD j 0 → i = j := by
    intro i j hi hj heq
    rw [getD_eq_getElem_zero _ i (by rw [hlen]; exact hi),
      getD_eq_getElem_zero _ j (by rw [hlen]; exact hj)] at heq
    exact (hnd.getElem_inj_iff).mp heq
  have step : ∀ k, (buildLinks (shufflePerm n) initMem)^[k] 0 =
      (shufflePerm n).getD ((i0 + k) % n) 0 := by
    intro k
    have h := buildLinks_iterate (shufflePerm n) initMem hnd k i0 hi0l
    rw [hi0v, hlen] at h
    exact h
  have ret : ∀ k, (buildLinks (shufflePerm n) initMem)^[k] 0 = 0 ↔ k % n = 0 := by
    intro k
    rw [step k]
    constructor
    · intro h
      have h2 : (i0 + k) % n = i0 :=
        inj _ _ (Nat.mod_lt _ hn) hi0n (h.trans hi0v.symm)
      refine add_mod_cancel_left n i0 k ?_
      rw [h2, Nat.mod_eq_of_lt hi0n]
    · intro h
      obtain ⟨t, ht⟩ := Nat.dvd_of_mod_eq_zero h
      rw [ht, show i0 + n * t = i0 + t * n by ring, Nat.add_mul_mod_self_right,
        Nat.mod_eq_of_lt hi0n]
      exact hi0v
  refine ⟨?_, ?_, ?_⟩
  · have main : ∀ d c, 1 ≤ c → c + d = n →
        countGo (buildLinks (shufflePerm n) initMem) 0
          ((buildLinks (shufflePerm n) initMem)^[c] 0) c (d + 1) = some n := by
      intro d
      induction d with
      | zero =>
        intro c hc1 hcd
        have hc : c = n := by omega
        have hf : (buildLinks (shufflePerm n) initMem)^[c] 0 = 0 :=
          (ret c).mpr (by rw [hc]; exact Nat.mod_self n)
        rw [countGo, if_pos hf, hc]
      | succ d ih =>
        intro c hc1 hcd
        have hcn : c < n := by omega
        have hf : (buildLinks (shufflePerm n) initMem)^[c] 0 ≠ 0 := by
          intro h
          have h2 := (ret c).mp h
          rw [Nat.mod_eq_of_lt hcn] at h2
          omega
        rw [countGo, if_neg hf,
          show (buildLinks (shufflePerm n) initMem)
              ((buildLinks (shufflePerm n) initMem)^[c] 0) =
            (buildLinks (shufflePerm n) initMem)^[c + 1] 0 from
            (Function.iterate_succ_apply' _ c 0).symm]
        exact ih (c + 1) (by omega) (by omega)
    have hmain := main (n - 1) 1 (le_refl 1) (by omega)
    rw [show n - 1 + 1 = n by omega,
      congrFun (Function.iterate_one (buildLinks (shufflePerm n) initMem)) 0] at hmain
    exact hmain
  · intro i j hij hjn heq
    rw [step (i + 1), step (j + 1)] at heq
    have h1 : (i0 + (i + 1)) % n = (i0 + (j + 1)) % n :=
      inj ((i0 + (i + 1)) % n) ((i0 + (j + 1)) % n)
        (Nat.mod_lt _ hn) (Nat.mod_lt _ hn) heq
    have h2 : ((i0 + (i + 1)) + (j - i)) % n = (i0 + (i + 1)) % n := by
      rw [show (i0 + (i + 1)) + (j - i) = i0 + (j + 1) by omega]
      exact h1.symm
    have h4 := add_mod_cancel_left n (i0 + (i + 1)) (j - i) h2
    rw [Nat.mod_eq_of_lt (show j - i < n by omega)] at h4
    omega
  · intro s hs
    have hmem : s ∈ shufflePerm n := hperm.mem_iff.mpr (List.mem_range.mpr hs)
    obtain ⟨m, hm, hms⟩ : ∃ m, m < n ∧ (shufflePerm n).getD m 0 = s := by
      obtain ⟨m, hm, hval⟩ := List.mem_iff_getElem.mp hmem
      exact ⟨m, hlen ▸ hm, by rw [getD_eq_getElem_zero _ m hm]; exact hval⟩
    refine ⟨(m + n - (i0 + 1) % n) % n, Nat.mod_lt _ hn, ?_⟩
    rw [step _]
    have hA : (i0 + 1) % n ≤ m + n :=
      le_trans (Nat.le_of_lt (Nat.mod_lt _ hn)) (by omega)
    have e : ((i0 + 1) + (m + n - (i0 + 1) % n) % n) % n = m := by
      conv_lhs => rw [← Nat.mod_add_mod]
      rw [Nat.add_mod_mod, Nat.add_sub_cancel' hA, Nat.add_mod_right]
      exact Nat.mod_eq_of_lt hm
    rw [show i0 + ((m + n - (i0 + 1) % n) % n + 1) =
      (i0 + 1) + (m + n - (i0 + 1) % n) % n by omega, e]
    exact hms

/-- buildRegion succeeds on a positive multiple of the cache line size: the
count self check passes and the descriptor holds the built next map. -/
theorem buildRegion_ok (size : ℕ) (hmul : size % UB_CACHE_LINE_SIZE = 0)
    (hpos : 0 < size) :
    buildRegion size = some ⟨size, 0,
      buildLinks (shufflePerm (size / UB_CACHE_LINE_SIZE)) initMem⟩ := by
  have hn : 0 < size / UB_CACHE_LINE_SIZE :=
    Nat.div_pos (Nat.le_of_dvd hpos (Nat.dvd_of_mod_eq_zero hmul))
      (by norm_num [UB_CACHE_LINE_SIZE])
  obtain ⟨hcount, -, -⟩ := shuffle_cycle_facts (size / UB_CACHE_LINE_SIZE) hn
  unfold buildRegion
  simp only [hcount]
  simp

/-- C6 counterexample: the capacity assert of shuffled_region computes
size + offset in size_t, so the sum wraps modulo 2 ^ 64. At size = 2 ^ 64 - 64
(a multiple of the cache line size) and offset = 128 the mathematical sum
exceeds every capacity, yet the wrapped sum is 64, the assert passes and the
builder does not take the fatal assertion path, contradicting the claim as
stated. -/
theorem c6_counterexample :
    104857600 < 2 ^ 64 - 64 + 128 ∧
    shuffled_region 104857600 (2 ^ 64 - 64) 128 ≠ none := by
  refine ⟨by norm_num, ?_⟩
  unfold shuffled_region
  rw [if_neg (by decide), if_neg (by decide), if_neg (by decide),
    buildRegion_ok (2 ^ 64 - 64) (by decide) (by decide)]
  exact Option.some_ne_none _

/-- C6 amended: each configuration error takes the fatal assertion path: an
oversized request, a non-power-of-two alignment or one beyond 2MB makes
aligned_ptr fail, and a region size that is no multiple of the cache line
size, or a size + offset beyond the large arena capacity whose size_t sum
does not wrap (size + offset below 2 ^ 64), makes shuffled_region fail. -/
theorem c6_fatal_config_errors (base base_alignment required_size cap size offset : ℕ) :
    (STORAGE_SIZE < required_size ∨ is_pow2 base_alignment = false ∨
        TWO_MB < base_alignment →
      aligned_ptr base base_alignment required_size = none) ∧
    (size + offset < U64 →
      size % UB_CACHE_LINE_SIZE ≠ 0 ∨ cap < size + offset →
      shuffled_region cap size offset = none) := by
  constructor
  · intro h
    unfold aligned_ptr
    split_ifs with h1 h2 h3
    · rfl
    · rfl
    · rfl
    · rcases h with h | h | h
      · exact absurd h h1
      · simp [h] at h2
      · exact absurd h h3
  · intro hno h
    unfold shuffled_region
    rw [Nat.mod_eq_of_lt hno]
    split_ifs with h1 h2 h3
    · rfl
    · rfl
    · rfl
    · rcases h with h | h
      · exact absurd h h2
      · exact absurd h h1

/-- C6 witness: an input violating all three alignment asserts and both
region asserts at once, with a non-wrapping sum. -/
theorem c6_witness :
    aligned_ptr 2097152 6291456 104857601 = none ∧
    shuffled_region 104857600 65 104857600 = none :=
  ⟨(c6_fatal_config_errors 2097152 6291456 104857601 104857600 65 104857600).1
      (Or.inl (by decide)),
    (c6_fatal_config_errors 2097152 6291456 104857601 104857600 65 104857600).2
      (by decide) (Or.inl (by decide))⟩

/-- C1: for every size and offset passing the builder preconditions, the
shuffled region links the slots into a single cycle: the count walk from the
returned first slot reports exactly size / cache_line_size steps, the first
size / cache_line_size stops are pairwise distinct, and every slot of the
region occurs among them. -/
theorem c1_single_cycle (cap size offset : ℕ)
    (hcap : size + offset ≤ cap)
    (hmul : size % UB_CACHE_LINE_SIZE = 0)
    (hpos : 0 < size) :
    ∃ r, shuffled_region cap size offset = some r ∧ r.start = 0 ∧
      count r.next r.start (size / UB_CACHE_LINE_SIZE) =
        some (size / UB_CACHE_LINE_SIZE) ∧
      (∀ i j, i < j → j < size / UB_CACHE_LINE_SIZE →
        r.next^[i + 1] r.start ≠ r.next^[j + 1] r.start) ∧
      ∀ s, s < size / UB_CACHE_LINE_SIZE →
        ∃ k, k < size / UB_CACHE_LINE_SIZE ∧ r.next^[k + 1] r.start = s := by
  have hn : 0 < size / UB_CACHE_LINE_SIZE :=
    Nat.div_pos (Nat.le_of_dvd hpos (Nat.dvd_of_mod_eq_zero hmul))
      (by norm_num [UB_CACHE_LINE_SIZE])
  obtain ⟨hc, hd, hv⟩ := shuffle_cycle_facts (size / UB_CACHE_LINE_SIZE) hn
  refine ⟨⟨size, 0, buildLinks (shufflePerm (size / UB_CACHE_LINE_SIZE)) initMem⟩,
    ?_, rfl, hc, hd, hv⟩
  unfold shuffled_region
  have hml := Nat.mod_le (size + offset) U64
  rw [if_neg (by omega), if_neg (by simp [hmul]), if_neg (by omega)]
  exact buildRegion_ok size hmul hpos

/-- C1 witness, the concrete scenario of the spec: cache line 64 bytes,
region size 6400 bytes, 100 slots, cycle length exactly 100. -/
theorem c1_witness :
    ∃ r, shuffled_region 104857600 6400 0 = some r ∧ r.start = 0 ∧
      count r.next r.start 100 = some 100 ∧
      (∀ i j, i < j → j < 100 → r.next^[i + 1] r.start ≠ r.next^[j + 1] r.start) ∧
      ∀ s, s < 100 → ∃ k, k < 100 ∧ r.next^[k + 1] r.start = s := by
  have h := c1_single_cycle 104857600 6400 0 (by decide) (by decide) (by decide)
  have h64 : 6400 / UB_CACHE_LINE_SIZE = 100 := by decide
  rw [h64] at h
  exact h

example : is_pow2 64 = true := by decide
example : is_pow2 (3 * TWO_MB) = false := by decide
example : List.Perm (shufflePerm 5) (List.range 5) := by decide
example : (shuffled_region 104857600 320 0).isSome = true := by
  set_option maxRecDepth 4000 in decide

end UarchBench
